import Mathlib

/-!
Verification of the row-to-hierarchy aggregation and search logic of
`src/app.py` (API Cronograma de Estudos).  Python strings are embedded as
lists of code points (`List Nat`); each helper of the source file is
translated as a computable Lean function of the same name.
-/

namespace ApiEnamed

/-- Code points of a Python string value. -/
abbrev Str := List Nat

/-- Convert a Lean string literal to its code points (for concrete inputs). -/
def str2l (s : String) : Str := s.data.map Char.toNat

/-- Whitespace stripped by Python `str.strip` (ASCII whitespace). -/
def isSpaceNat (n : Nat) : Bool :=
  n = 32 || n = 9 || n = 10 || n = 13 || n = 11 || n = 12

/-- Python `s.strip()`: drop leading and trailing whitespace. -/
def trimStr (s : Str) : Str :=
  ((s.dropWhile isSpaceNat).reverse.dropWhile isSpaceNat).reverse

/-- ASCII decimal digit, the `\d` class of the source regexes. -/
def isDigitNat (n : Nat) : Bool := 48 ≤ n && n ≤ 57

/-- First maximal run of digits in a string: the first element of
`re.findall` with a digits-run pattern, `none` when no digit occurs. -/
def firstDigitRun : Str → Option Str
  | [] => none
  | c :: rest =>
    if isDigitNat c then some (c :: rest.takeWhile isDigitNat)
    else firstDigitRun rest

/-- Code points of the literal `"semana_"`. -/
def chaveSemanaBase : Str := [115, 101, 109, 97, 110, 97, 95]

/-- `criar_chave_semana` (src/app.py:27): `"semana_" + first digit run`,
`None` when the label holds no digit. -/
def criar_chave_semana (s : Str) : Option Str :=
  (firstDigitRun s).map (fun d => chaveSemanaBase ++ d)

/-- Rest of the string after the first close-paren, code point 41;
`none` when the string has no close-paren. -/
def afterFirstClose : Str → Option Str
  | [] => none
  | c :: rest => if c = 41 then some rest else afterFirstClose rest

/-- `extrair_area_conhecimento` (src/app.py:44): `re.split` on a close-paren
followed by whitespace, with maxsplit 1; the part after the separator is
stripped, and the empty string is returned when no split happened. -/
def extrair_area_conhecimento (s : Str) : Str :=
  match afterFirstClose s with
  | some r => trimStr (r.dropWhile isSpaceNat)
  | none => []

/-- Code points of the separator `" - "`. -/
def sepTema : Str := [32, 45, 32]

/-- Bool test that `pat` is a prefix of `s`. -/
def prefixOfStr : Str → Str → Bool
  | [], _ => true
  | _ :: _, [] => false
  | a :: as, b :: bs => if a = b then prefixOfStr as bs else false

/-- Split at the first occurrence of `" - "`, `none` when absent. -/
def splitTemaSub : Str → Option (Str × Str)
  | [] => none
  | c :: rest =>
    if prefixOfStr sepTema (c :: rest) then some ([], rest.drop 2)
    else
      match splitTemaSub rest with
      | some (a, b) => some (c :: a, b)
      | none => none

/-- `extrair_tema_subtema` (src/app.py:51): split the combined topic label on
the first `" - "` into stripped (topic, subtopic); with no separator the
whole stripped label is the topic and the subtopic is empty. -/
def extrair_tema_subtema (s : Str) : Str × Str :=
  match splitTemaSub s with
  | some (a, b) => (trimStr a, trimStr b)
  | none => (trimStr s, [])

/-! ## Data model of the build (src/app.py:96-152) -/

/-- A lesson record: the dict built at src/app.py:119-123. -/
structure Aula where
  nome : Str
  link_aula : Str
  link_gratuito : Str
  deriving DecidableEq, Repr

/-- A subtopic as built per-row (src/app.py:126-129). -/
structure SubtemaObj where
  nome : Str
  aulas : List Aula
  deriving DecidableEq, Repr

/-- A topic as built per-row (src/app.py:132-135). -/
structure TemaObj where
  nome : Str
  subtemas : List SubtemaObj
  deriving DecidableEq, Repr

/-- A per-row day object (src/app.py:138-142). -/
structure DiaObj where
  semana : Str
  nome : Str
  temas : List TemaObj
  deriving DecidableEq, Repr

/-- One raw spreadsheet row: the values read by `row.get` at
src/app.py:97-122, already string-typed; a missing column is the empty
string. -/
structure RawRow where
  semana : Str
  dia : Str
  tema_do_dia : Str
  aula : Str
  link_aula : Str
  link_gratuito : Str
  deriving DecidableEq, Repr

/-- Normalization and skip test applied to one row (src/app.py:96-146):
yields the topic-area key and the day object appended to `dados_brutos`,
or `none` when the row is skipped by the guard at line 106. -/
def normRow (r : RawRow) : Option (Str × DiaObj) :=
  let semana_str := trimStr r.semana
  let dia_str := trimStr r.dia
  let tema_completo := trimStr r.tema_do_dia
  let aula_str := trimStr r.aula
  match criar_chave_semana semana_str with
  | none => none
  | some chave =>
    let area := extrair_area_conhecimento semana_str
    if area = [] ∨ dia_str = [] ∨ tema_completo = [] then none
    else
      let ts := extrair_tema_subtema tema_completo
      some (area,
        { semana := chave
          nome := dia_str
          temas := [{ nome := ts.1
                      subtemas := [{ nome := ts.2
                                     aulas := [{ nome := aula_str
                                                 link_aula := trimStr r.link_aula
                                                 link_gratuito := trimStr r.link_gratuito }] }] }] })

/-! ## Association lists (Python dicts, insertion ordered) -/

/-- First value stored under key `k` (Python dict lookup; keys are unique in
all the lists built below). -/
def lookupA {β : Type} : List (Str × β) → Str → Option β
  | [], _ => none
  | p :: l, k => if p.1 = k then some p.2 else lookupA l k

/-- Python `k in d`. -/
def hasKey {β : Type} : List (Str × β) → Str → Bool
  | [], _ => false
  | p :: l, k => if p.1 = k then true else hasKey l k

/-- Replace the value stored under key `k` by `f` of it (in-place dict
mutation); other entries and the key order are untouched. -/
def updateA {β : Type} (l : List (Str × β)) (k : Str) (f : β → β) : List (Str × β) :=
  l.map (fun p => if p.1 = k then (p.1, f p.2) else p)

/-- `dados_brutos[area].append(dia_obj)` with `defaultdict(list)`
(src/app.py:69 and 146): a fresh key is inserted at the end. -/
def pushDado (db : List (Str × List DiaObj)) (k : Str) (d : DiaObj) :
    List (Str × List DiaObj) :=
  if hasKey db k then updateA db k (fun ds => ds ++ [d]) else db ++ [(k, [d])]

/-- One iteration of the row loop (src/app.py:96-146): a skipped row
leaves `dados_brutos` unchanged. -/
def pushRow (db : List (Str × List DiaObj)) (r : RawRow) : List (Str × List DiaObj) :=
  match normRow r with
  | some p => pushDado db p.1 p.2
  | none => db

/-- The `dados_brutos` mapping after the row loop of
`processar_arquivos_para_hierarquia` (src/app.py:96-146). -/
def dadosBrutos (rows : List RawRow) : List (Str × List DiaObj) :=
  rows.foldl pushRow []

/-! ## Consolidation, `formatar_cronograma_final` (src/app.py:154-207) -/

/-- Consolidated subtopic (the innermost defaultdict value). -/
structure SubtemaProc where
  nome : Str
  aulas : List Aula
  deriving DecidableEq, Repr

/-- Consolidated topic: its subtopics are a dict keyed by subtopic name. -/
structure TemaProc where
  nome : Str
  subtemas : List (Str × SubtemaProc)
  deriving DecidableEq, Repr

/-- Consolidated day (`dias_processados` value, src/app.py:167-177). -/
structure DiaProc where
  semana : Str
  nome : Str
  temas : List (Str × TemaProc)
  deriving DecidableEq, Repr

/-- Append a lesson unless a structurally equal one is present
(src/app.py:190-192). -/
def pushAula (l : List Aula) (a : Aula) : List Aula :=
  if a ∈ l then l else l ++ [a]

/-- Fresh subtopic entry: the defaultdict default of src/app.py:172-175
with its name set at src/app.py:188. -/
def subProcInit (s : SubtemaObj) : SubtemaProc := { nome := s.nome, aulas := [] }

/-- The lesson-append loop applied to a subtopic entry
(src/app.py:190-192). -/
def subProcMerge (s : SubtemaObj) (sp : SubtemaProc) : SubtemaProc :=
  { sp with aulas := s.aulas.foldl pushAula sp.aulas }

/-- Merge one per-row subtopic into the subtopic dict of a consolidated
topic (src/app.py:185-192). -/
def mergeSubtema (subs : List (Str × SubtemaProc)) (s : SubtemaObj) :
    List (Str × SubtemaProc) :=
  updateA (if hasKey subs s.nome then subs else subs ++ [(s.nome, subProcInit s)])
    s.nome (subProcMerge s)

/-- Fresh topic entry: the defaultdict default of src/app.py:170-176 with
its name set at src/app.py:183. -/
def temaProcInit (t : TemaObj) : TemaProc := { nome := t.nome, subtemas := [] }

/-- The subtopic merge loop applied to a topic entry (src/app.py:185-192). -/
def temaProcMerge (t : TemaObj) (tp : TemaProc) : TemaProc :=
  { tp with subtemas := t.subtemas.foldl mergeSubtema tp.subtemas }

/-- Merge one per-row topic into the topic dict of a consolidated day
(src/app.py:180-192). -/
def mergeTema (temas : List (Str × TemaProc)) (t : TemaObj) :
    List (Str × TemaProc) :=
  updateA (if hasKey temas t.nome then temas else temas ++ [(t.nome, temaProcInit t)])
    t.nome (temaProcMerge t)

/-- Fresh day entry (src/app.py:166-177): the week key is set at creation
time and never touched again. -/
def diaProcInit (d : DiaObj) : DiaProc :=
  { semana := d.semana, nome := d.nome, temas := [] }

/-- The topic merge loop applied to a day entry (src/app.py:180-192). -/
def diaProcMerge (d : DiaObj) (dp : DiaProc) : DiaProc :=
  { dp with temas := d.temas.foldl mergeTema dp.temas }

/-- Merge one per-row day object into `dias_processados`
(src/app.py:164-192). -/
def mergeDia (dias : List (Str × DiaProc)) (d : DiaObj) : List (Str × DiaProc) :=
  updateA (if hasKey dias d.nome then dias else dias ++ [(d.nome, diaProcInit d)])
    d.nome (diaProcMerge d)

/-- Final subtopic, after dict-to-list conversion (src/app.py:200). -/
structure SubtemaFinal where
  nome : Str
  aulas : List Aula
  deriving DecidableEq, Repr

/-- Final topic (src/app.py:198-202). -/
structure TemaFinal where
  nome : Str
  subtemas : List SubtemaFinal
  deriving DecidableEq, Repr

/-- Final day entry (src/app.py:196-203). -/
structure DiaFinal where
  semana : Str
  nome : Str
  temas : List TemaFinal
  deriving DecidableEq, Repr

/-- Dict-to-list conversion for a subtopic value. -/
def finalizeSub (sp : SubtemaProc) : SubtemaFinal :=
  { nome := sp.nome, aulas := sp.aulas }

/-- Dict-to-list conversion for a topic value (src/app.py:198-202): the
subtopic dict is replaced by its value list. -/
def finalizeTema (tp : TemaProc) : TemaFinal :=
  { nome := tp.nome, subtemas := tp.subtemas.map (fun q => finalizeSub q.2) }

/-- Dict-to-list conversion for a day value (src/app.py:196-203): the
topic dict is replaced by its value list. -/
def finalizeDia (dp : DiaProc) : DiaFinal :=
  { semana := dp.semana, nome := dp.nome, temas := dp.temas.map (fun q => finalizeTema q.2) }

/-- `formatar_cronograma_final` (src/app.py:154-207): consolidate each
day list of each area and convert the nested dicts back to value lists; the
value is the inner mapping stored under the `"cronograma"` key. -/
def formatar_cronograma_final (db : List (Str × List DiaObj)) :
    List (Str × List DiaFinal) :=
  db.map (fun p => (p.1, (p.2.foldl mergeDia []).map (fun q => finalizeDia q.2)))

/-- The whole row pipeline: `dados_brutos` accumulation followed by
`formatar_cronograma_final`. -/
def build (rows : List RawRow) : List (Str × List DiaFinal) :=
  formatar_cronograma_final (dadosBrutos rows)

/-! ## File-level processing (src/app.py:63-152) -/

/-- Reading one source file either yields its rows or raises. An empty
data frame is `Except.ok []` (the `df.empty` branch at src/app.py:84-86
contributes nothing and continues). -/
abbrev FileRead := Except Unit (List RawRow)

/-- Collect rows from the files in order; the first read error makes the
whole build return the bare empty dict (the `except` clause at
src/app.py:148-150 does `return {}`). -/
def gatherRows : List FileRead → Option (List RawRow)
  | [] => some []
  | Except.error _ :: _ => none
  | Except.ok rs :: rest => (gatherRows rest).map (fun acc => rs ++ acc)

/-- `processar_arquivos_para_hierarquia` (src/app.py:63-152) over the
enumerated files: `none` models the bare `{}` returned when no file is
found (line 76) or when any file raises while being read (line 150);
otherwise the formatted schedule is produced. -/
def processar_arquivos_para_hierarquia (files : List FileRead) :
    Option (List (Str × List DiaFinal)) :=
  if files.isEmpty then none
  else
    match gatherRows files with
    | none => none
    | some rows => some (build rows)

/-! ## Search, `buscar` (src/app.py:238-305) -/

/-- Python `str.lower` on one code point (ASCII letters). -/
def lowerNat (n : Nat) : Nat := if 65 ≤ n ∧ n ≤ 90 then n + 32 else n

/-- Python `s.lower()`. -/
def lowerStr (s : Str) : Str := s.map lowerNat

/-- Python `termo in caminho`: substring containment. -/
def strContains : Str → Str → Bool
  | [], pat => pat.isEmpty
  | a :: rest, pat => prefixOfStr pat (a :: rest) || strContains rest pat

/-- One search result: either the day-shaped dict (src/app.py:270-276 and
282-288, whose `aula_encontrada` is the empty list) or the leaf-shaped
dict (src/app.py:296-303). -/
inductive Resultado where
  | dia (semana nome area : Str) (temas : List TemaFinal)
  | aula (area semana nome tema subtema : Str) (a : Aula)
  deriving DecidableEq, Repr

/-- The day-shaped result dict for a matched day. -/
def diaResultado (area : Str) (d : DiaFinal) : Resultado :=
  Resultado.dia d.semana d.nome area d.temas

/-- The per-day part of the search loop (src/app.py:279-303). -/
def buscaDia (area area_busca termo : Str) (d : DiaFinal) : List Resultado :=
  if strContains (lowerStr d.nome) termo then [diaResultado area d]
  else
    (d.temas.map (fun t =>
      (t.subtemas.map (fun st =>
        st.aulas.filterMap (fun a =>
          let caminho := lowerStr (area_busca ++ [32] ++ d.nome ++ [32] ++
            t.nome ++ [32] ++ st.nome ++ [32] ++ a.nome)
          if strContains caminho termo then
            some (Resultado.aula area d.semana d.nome t.nome st.nome a)
          else none))).flatten)).flatten

/-- The per-area part of the search loop (src/app.py:263-303). -/
def buscaArea (termo : Str) (p : Str × List DiaFinal) : List Resultado :=
  let area_busca := lowerStr p.1
  if strContains area_busca termo then p.2.map (diaResultado p.1)
  else (p.2.map (buscaDia p.1 area_busca termo)).flatten

/-- The result accumulation loop of `buscar` (src/app.py:261-305), run on
an already lower-cased term. -/
def buscarCore : List (Str × List DiaFinal) → Str → List Resultado
  | [], _ => []
  | p :: rest, termo => buscaArea termo p ++ buscarCore rest termo

/-- Search with a raw term: the term is lower-cased first
(src/app.py:257) and then matched. -/
def buscar (cron : List (Str × List DiaFinal)) (q : Str) : List Resultado :=
  buscarCore cron (lowerStr q)

/-- Code points of the 400 message at src/app.py:259
(Parametro de busca q e obrigatorio, with accents and quotes). -/
def errMsg : Str :=
  [80, 97, 114, 226, 109, 101, 116, 114, 111, 32, 100, 101, 32, 98, 117,
   115, 99, 97, 32, 39, 113, 39, 32, 233, 32, 111, 98, 114, 105, 103, 97,
   116, 243, 114, 105, 111]

/-- The `/api/buscar` handler (src/app.py:238-305): `q` missing is the
empty default; the lower-cased term being falsy yields the 400 error body,
otherwise the 200 result list. -/
def buscar_rota (cron : List (Str × List DiaFinal)) (q : Option Str) :
    Except Str (List Resultado) :=
  let termo := lowerStr (q.getD [])
  if termo.isEmpty then Except.error errMsg else Except.ok (buscarCore cron termo)

/-! ## Reference functions used to state the claims -/

/-- Kept rows of the input, as (area key, day object) pairs in processing
order. -/
def keptRows (rows : List RawRow) : List (Str × DiaObj) := rows.filterMap normRow

/-- Area keys of the kept rows, in processing order. -/
def keptAreas : List RawRow → List Str
  | [] => []
  | r :: rs =>
    (match normRow r with
     | some p => [p.1]
     | none => []) ++ keptAreas rs

/-- Day objects contributed to one area, in processing order. -/
def contribDias : List RawRow → Str → List DiaObj
  | [], _ => []
  | r :: rs, a =>
    (match normRow r with
     | some p => if p.1 = a then [p.2] else []
     | none => []) ++ contribDias rs a

/-- Topic names contributed by the day objects whose name is `k`, in
processing order. -/
def contribTemas : List DiaObj → Str → List Str
  | [], _ => []
  | d :: ds, k =>
    (if d.nome = k then d.temas.map TemaObj.nome else []) ++ contribTemas ds k

/-- First day object named `k`. -/
def findDiaObj : List DiaObj → Str → Option DiaObj
  | [], _ => none
  | d :: ds, k => if d.nome = k then some d else findDiaObj ds k

/-- First final day named `k`. -/
def findDiaIn : List DiaFinal → Str → Option DiaFinal
  | [], _ => none
  | d :: ds, k => if d.nome = k then some d else findDiaIn ds k

/-- Topic objects contributed by the day objects named `k`, in processing
order. -/
def contribTemaObjs : List DiaObj → Str → List TemaObj
  | [], _ => []
  | d :: ds, k => (if d.nome = k then d.temas else []) ++ contribTemaObjs ds k

/-- First topic object named `t`. -/
def findTemaObj : List TemaObj → Str → Option TemaObj
  | [], _ => none
  | t0 :: ts, t => if t0.nome = t then some t0 else findTemaObj ts t

/-- Subtopic objects contributed by the topic objects named `t`, in
processing order. -/
def contribSubObjs : List TemaObj → Str → List SubtemaObj
  | [], _ => []
  | t0 :: ts, t => (if t0.nome = t then t0.subtemas else []) ++ contribSubObjs ts t

/-- First subtopic object named `s`. -/
def findSubObj : List SubtemaObj → Str → Option SubtemaObj
  | [], _ => none
  | s0 :: ss, s => if s0.nome = s then some s0 else findSubObj ss s

/-- Lessons contributed by the subtopic objects named `s`, in processing
order. -/
def contribAulasOf : List SubtemaObj → Str → List Aula
  | [], _ => []
  | s0 :: ss, s => (if s0.nome = s then s0.aulas else []) ++ contribAulasOf ss s

/-- First final topic named `t`. -/
def findTemaIn : List TemaFinal → Str → Option TemaFinal
  | [], _ => none
  | t0 :: ts, t => if t0.nome = t then some t0 else findTemaIn ts t

/-- First final subtopic named `s`. -/
def findSubIn : List SubtemaFinal → Str → Option SubtemaFinal
  | [], _ => none
  | s0 :: ss, s => if s0.nome = s then some s0 else findSubIn ss s

/-- Day list of one area of the built schedule (empty for an absent
area). -/
def diasOf (cron : List (Str × List DiaFinal)) (area : Str) : List DiaFinal :=
  (lookupA cron area).getD []

/-- Day entry of one area of the built schedule. -/
def findDia (cron : List (Str × List DiaFinal)) (area dia : Str) : Option DiaFinal :=
  findDiaIn (diasOf cron area) dia

/-- Insert an element at the end unless it is already present. -/
def insOcc {α : Type} [DecidableEq α] (ks : List α) (k : α) : List α :=
  if k ∈ ks then ks else ks ++ [k]

/-- Keep the first occurrence of each element, in order. -/
def firstOccur {α : Type} [DecidableEq α] (l : List α) : List α :=
  l.foldl insOcc []

/-- Bool check that no subtopic lesson list of the schedule holds two
structurally equal lessons. -/
def nodupAulasCron (cron : List (Str × List DiaFinal)) : Bool :=
  cron.all (fun p => p.2.all (fun d => d.temas.all (fun t =>
    t.subtemas.all (fun s => decide s.aulas.Nodup))))

/-- First-some choice on options. -/
def optOr {α : Type} : Option α → Option α → Option α
  | some a, _ => some a
  | none, b => b

/-- Every subtopic entry of a consolidated topic carries its own key as
name. -/
def SubNamesOk (ss : List (Str × SubtemaProc)) : Prop := ∀ q ∈ ss, q.2.nome = q.1

/-- Every topic entry of a consolidated day carries its own key as name. -/
def TemaNamesOk (ts : List (Str × TemaProc)) : Prop := ∀ q ∈ ts, q.2.nome = q.1

/-- Every day entry carries its own key as name, and so do its topics. -/
def DiaNamesOk (ds : List (Str × DiaProc)) : Prop :=
  ∀ p ∈ ds, p.2.nome = p.1 ∧ TemaNamesOk p.2.temas

/-- Every subtopic entry of the list has a duplicate-free lesson list. -/
def SubsNodup (ss : List (Str × SubtemaProc)) : Prop := ∀ p ∈ ss, p.2.aulas.Nodup

/-- Every topic entry has only duplicate-free lesson lists below it. -/
def TemasNodup (ts : List (Str × TemaProc)) : Prop := ∀ q ∈ ts, SubsNodup q.2.subtemas

/-- Every day entry has only duplicate-free lesson lists below it. -/
def DiasNodup (ds : List (Str × DiaProc)) : Prop := ∀ p ∈ ds, TemasNodup p.2.temas

/-- The Bool form of the skip guard at src/app.py:106, in source order:
blank topic area, no derivable week key, blank day, blank combined topic. -/
def skipRow (r : RawRow) : Bool :=
  (extrair_area_conhecimento (trimStr r.semana)).isEmpty ||
  (criar_chave_semana (trimStr r.semana)).isNone ||
  (trimStr r.dia).isEmpty || (trimStr r.tema_do_dia).isEmpty

/-- The topic-area derivation as the amended claim words it: the trimmed
text that follows the first close-paren character of the label, the empty
string when the label holds no close-paren at all. -/
def deriveTopicAreaAmended (s : Str) : Str :=
  match s.dropWhile (fun c => !(decide (c = 41))) with
  | [] => []
  | _ :: rest => trimStr rest

/-! ## Concrete inputs used by witnesses and counterexamples -/

/-- A representative well-formed row. -/
def rowKeep : RawRow :=
  { semana := str2l "Semana 1 (x) Med", dia := str2l "seg",
    tema_do_dia := str2l "Cardio - HAS", aula := str2l "A1",
    link_aula := str2l "", link_gratuito := str2l "" }

/-- Well-formed row with day name "b" and topic "t2". -/
def rowDayB : RawRow :=
  { semana := str2l "Semana 1 (x) Med", dia := str2l "b",
    tema_do_dia := str2l "t2", aula := str2l "", link_aula := str2l "",
    link_gratuito := str2l "" }

/-- Well-formed row with day name "a" and topic "t1". -/
def rowDayA : RawRow :=
  { rowDayB with dia := str2l "a", tema_do_dia := str2l "t1" }

/-- Row with a derivable week key and nonblank day and topic labels, but
whose week label yields an empty topic area (no parenthesis). -/
def rowNoArea : RawRow :=
  { semana := str2l "Semana 1", dia := str2l "seg", tema_do_dia := str2l "T",
    aula := str2l "", link_aula := str2l "", link_gratuito := str2l "" }

/-- First of two rows sharing the derivable week key "semana_1". -/
def rowW1Med : RawRow :=
  { semana := str2l "Semana 1 (a) Med", dia := str2l "seg",
    tema_do_dia := str2l "T", aula := str2l "", link_aula := str2l "",
    link_gratuito := str2l "" }

/-- Second row with week key "semana_1" but different label, period and
area. -/
def rowW1Cir : RawRow :=
  { semana := str2l "Semana 1 (b) Cir", dia := str2l "ter",
    tema_do_dia := str2l "U", aula := str2l "", link_aula := str2l "",
    link_gratuito := str2l "" }

/-- A concrete final day entry whose stored week key is "semana_1". -/
def diaSeg : DiaFinal :=
  { semana := str2l "semana_1", nome := str2l "seg",
    temas := [{ nome := str2l "t",
                subtemas := [{ nome := str2l "s",
                               aulas := [{ nome := str2l "a",
                                           link_aula := [],
                                           link_gratuito := [] }] }] }] }

/-- A one-area, one-day schedule holding `diaSeg`. -/
def cronSemana1 : List (Str × List DiaFinal) := [(str2l "med", [diaSeg])]

/-! ## Option and association list lemmas -/

@[simp]
theorem optOr_some {α : Type} (a : α) (b : Option α) : optOr (some a) b = some a := rfl

@[simp]
theorem optOr_none {α : Type} (b : Option α) : optOr none b = b := rfl

@[simp]
theorem optOr_none_right {α : Type} (a : Option α) : optOr a none = a := by
  cases a <;> rfl

theorem lookupA_updateA {β : Type} (l : List (Str × β)) (k : Str) (f : β → β) (k' : Str) :
    lookupA (updateA l k f) k' =
      if k' = k then (lookupA l k).map f else lookupA l k' := by
  induction l with
  | nil => simp [updateA, lookupA]
  | cons p l ih =>
    simp only [updateA, List.map_cons] at ih ⊢
    by_cases h1 : p.1 = k
    · rw [if_pos h1]
      by_cases h2 : k' = k
      · subst h2
        simp [lookupA, h1]
      · have h3 : ¬ p.1 = k' := fun hh => h2 (hh ▸ h1)
        have h4 : ¬ k = k' := fun hh => h2 hh.symm
        simp [lookupA, h1, h2, h3, h4, ih]
    · rw [if_neg h1]
      by_cases h3 : p.1 = k'
      · have h2 : ¬ k' = k := fun hh => h1 (h3.trans hh)
        simp [lookupA, h2, h3]
      · simp [lookupA, h1, h3, ih]

theorem lookupA_append_single {β : Type} (l : List (Str × β)) (k : Str) (v : β) (k' : Str) :
    lookupA (l ++ [(k, v)]) k' =
      optOr (lookupA l k') (if k' = k then some v else none) := by
  induction l with
  | nil =>
    by_cases h : k = k'
    · subst h
      simp [lookupA]
    · have h2 : ¬ k' = k := fun hh => h hh.symm
      simp [lookupA, h, h2]
  | cons p l ih =>
    by_cases h1 : p.1 = k' <;> simp [lookupA, h1, ih]

theorem hasKey_eq_isSome {β : Type} (l : List (Str × β)) (k : Str) :
    hasKey l k = (lookupA l k).isSome := by
  induction l with
  | nil => rfl
  | cons p l ih => by_cases h : p.1 = k <;> simp [hasKey, lookupA, h, ih]

theorem hasKey_iff_mem {β : Type} (l : List (Str × β)) (k : Str) :
    hasKey l k = true ↔ k ∈ l.map Prod.fst := by
  induction l with
  | nil => simp [hasKey]
  | cons p l ih =>
    simp only [hasKey, List.map_cons, List.mem_cons]
    by_cases h : p.1 = k
    · simp [h, eq_comm]
    · simp only [if_neg h]
      rw [ih]
      constructor
      · exact fun hm => Or.inr hm
      · rintro (hm | hm)
        · exact absurd hm.symm h
        · exact hm

theorem map_fst_updateA {β : Type} (l : List (Str × β)) (k : Str) (f : β → β) :
    (updateA l k f).map Prod.fst = l.map Prod.fst := by
  induction l with
  | nil => rfl
  | cons p l ih => by_cases h : p.1 = k <;> simp_all [updateA]

theorem lookupA_mem {β : Type} (l : List (Str × β)) (k : Str) (v : β)
    (h : lookupA l k = some v) : (k, v) ∈ l := by
  induction l with
  | nil => simp [lookupA] at h
  | cons p l ih =>
    by_cases h1 : p.1 = k
    · simp only [lookupA, if_pos h1] at h
      have hv : p.2 = v := Option.some.inj h
      have hp : p = (k, v) := by
        cases p
        simp_all
      rw [← hp]
      exact List.mem_cons_self _ _
    · simp only [lookupA, if_neg h1] at h
      exact List.mem_cons_of_mem _ (ih h)

/-! ## Characterization of one get-or-create-then-update merge step -/

theorem lookup_mergeStep {β : Type} (l : List (Str × β)) (k0 : Str) (init : β)
    (f : β → β) (k : Str) :
    lookupA (updateA (if hasKey l k0 then l else l ++ [(k0, init)]) k0 f) k =
      if k = k0 then some (f ((lookupA l k0).getD init)) else lookupA l k := by
  by_cases h : hasKey l k0
  · rw [if_pos h, lookupA_updateA]
    by_cases hk : k = k0
    · rw [if_pos hk, if_pos hk]
      have hs := (hasKey_eq_isSome l k0) ▸ h
      cases hl : lookupA l k0 with
      | none => rw [hl] at hs; simp at hs
      | some v => simp [hl]
    · rw [if_neg hk, if_neg hk]
  · rw [if_neg h, lookupA_updateA]
    have hn : lookupA l k0 = none := by
      rw [hasKey_eq_isSome] at h
      cases hl : lookupA l k0 with
      | none => rfl
      | some v => rw [hl] at h; simp at h
    by_cases hk : k = k0
    · rw [if_pos hk, if_pos hk, lookupA_append_single, hn]
      simp
    · rw [if_neg hk, if_neg hk, lookupA_append_single]
      simp [hk]

theorem keys_mergeStep {β : Type} (l : List (Str × β)) (k0 : Str) (init : β)
    (f : β → β) :
    (updateA (if hasKey l k0 then l else l ++ [(k0, init)]) k0 f).map Prod.fst =
      insOcc (l.map Prod.fst) k0 := by
  by_cases h : hasKey l k0
  · rw [if_pos h, map_fst_updateA, insOcc, if_pos ((hasKey_iff_mem l k0).mp h)]
  · rw [if_neg h, map_fst_updateA, List.map_append, insOcc,
      if_neg (fun hm => h ((hasKey_iff_mem l k0).mpr hm))]
    rfl

theorem mergeDia_lookup (acc : List (Str × DiaProc)) (d : DiaObj) (k : Str) :
    lookupA (mergeDia acc d) k =
      if k = d.nome then
        some (diaProcMerge d ((lookupA acc d.nome).getD (diaProcInit d)))
      else lookupA acc k :=
  lookup_mergeStep acc d.nome (diaProcInit d) (diaProcMerge d) k

theorem mergeDia_keys (acc : List (Str × DiaProc)) (d : DiaObj) :
    (mergeDia acc d).map Prod.fst = insOcc (acc.map Prod.fst) d.nome :=
  keys_mergeStep acc d.nome (diaProcInit d) (diaProcMerge d)

theorem mergeTema_lookup (ts : List (Str × TemaProc)) (t : TemaObj) (k : Str) :
    lookupA (mergeTema ts t) k =
      if k = t.nome then
        some (temaProcMerge t ((lookupA ts t.nome).getD (temaProcInit t)))
      else lookupA ts k :=
  lookup_mergeStep ts t.nome (temaProcInit t) (temaProcMerge t) k

theorem mergeTema_keys (ts : List (Str × TemaProc)) (t : TemaObj) :
    (mergeTema ts t).map Prod.fst = insOcc (ts.map Prod.fst) t.nome :=
  keys_mergeStep ts t.nome (temaProcInit t) (temaProcMerge t)

theorem mergeSubtema_lookup (ss : List (Str × SubtemaProc)) (s : SubtemaObj) (k : Str) :
    lookupA (mergeSubtema ss s) k =
      if k = s.nome then
        some (subProcMerge s ((lookupA ss s.nome).getD (subProcInit s)))
      else lookupA ss k :=
  lookup_mergeStep ss s.nome (subProcInit s) (subProcMerge s) k

theorem mergeSubtema_keys (ss : List (Str × SubtemaProc)) (s : SubtemaObj) :
    (mergeSubtema ss s).map Prod.fst = insOcc (ss.map Prod.fst) s.nome :=
  keys_mergeStep ss s.nome (subProcInit s) (subProcMerge s)

theorem foldl_mergeSubtema_keys (sObjs : List SubtemaObj) (ss : List (Str × SubtemaProc)) :
    ((sObjs.foldl mergeSubtema ss).map Prod.fst) =
      (sObjs.map SubtemaObj.nome).foldl insOcc (ss.map Prod.fst) := by
  induction sObjs generalizing ss with
  | nil => rfl
  | cons s sObjs ih =>
    simp only [List.foldl_cons, List.map_cons]
    rw [ih, mergeSubtema_keys]

/-! ## Folding the merge steps over the day objects of one area -/

theorem foldl_mergeTema_keys (tObjs : List TemaObj) (ts : List (Str × TemaProc)) :
    ((tObjs.foldl mergeTema ts).map Prod.fst) =
      (tObjs.map TemaObj.nome).foldl insOcc (ts.map Prod.fst) := by
  induction tObjs generalizing ts with
  | nil => rfl
  | cons t tObjs ih =>
    simp only [List.foldl_cons, List.map_cons]
    rw [ih, mergeTema_keys]

theorem foldl_mergeDia_keys (dias : List DiaObj) (acc : List (Str × DiaProc)) :
    (dias.foldl mergeDia acc).map Prod.fst =
      (dias.map DiaObj.nome).foldl insOcc (acc.map Prod.fst) := by
  induction dias generalizing acc with
  | nil => rfl
  | cons d ds ih =>
    simp only [List.foldl_cons, List.map_cons]
    rw [ih, mergeDia_keys]

theorem foldl_mergeDia_semana (dias : List DiaObj) (acc : List (Str × DiaProc)) (k : Str) :
    (lookupA (dias.foldl mergeDia acc) k).map DiaProc.semana =
      optOr ((lookupA acc k).map DiaProc.semana)
            ((findDiaObj dias k).map DiaObj.semana) := by
  induction dias generalizing acc with
  | nil => simp [findDiaObj]
  | cons d ds ih =>
    simp only [List.foldl_cons, findDiaObj]
    rw [ih, mergeDia_lookup]
    by_cases hk : k = d.nome
    · rw [if_pos hk, if_pos hk.symm]
      have hsem : ∀ dp : DiaProc, (diaProcMerge d dp).semana = dp.semana := fun _ => rfl
      rw [hk]
      cases hl : lookupA acc d.nome with
      | none => simp [hsem, diaProcInit]
      | some dp => simp [hsem]
    · rw [if_neg hk, if_neg (fun hh => hk hh.symm)]

theorem foldl_mergeDia_temaKeys (dias : List DiaObj) (acc : List (Str × DiaProc)) (k : Str) :
    (lookupA (dias.foldl mergeDia acc) k).map (fun dp => dp.temas.map Prod.fst) =
      (optOr ((lookupA acc k).map (fun dp => dp.temas.map Prod.fst))
             (if (findDiaObj dias k).isSome then some [] else none)).map
        (fun base => (contribTemas dias k).foldl insOcc base) := by
  induction dias generalizing acc with
  | nil => cases h : lookupA acc k <;> simp [findDiaObj, contribTemas, h]
  | cons d ds ih =>
    simp only [List.foldl_cons, findDiaObj, contribTemas]
    rw [ih, mergeDia_lookup]
    have htk : ∀ dp : DiaProc,
        (diaProcMerge d dp).temas.map Prod.fst =
          (d.temas.map TemaObj.nome).foldl insOcc (dp.temas.map Prod.fst) :=
      fun dp => foldl_mergeTema_keys d.temas dp.temas
    by_cases hk : k = d.nome
    · subst hk
      cases hl : lookupA acc d.nome with
      | none => simp [htk, diaProcInit, List.foldl_append]
      | some dp => simp [htk, List.foldl_append]
    · have hnk : ¬ d.nome = k := fun hh => hk hh.symm
      rw [if_neg hk]
      simp only [if_neg hnk, List.nil_append]

/-! ## Full characterization of the consolidated entries: merging the day
objects one by one equals one merge fold over the flattened contributions -/

theorem foldl_mergeSubtema_entry (sObjs : List SubtemaObj)
    (ss : List (Str × SubtemaProc)) (s : Str) :
    lookupA (sObjs.foldl mergeSubtema ss) s =
      match lookupA ss s with
      | some sp => some { sp with aulas := (contribAulasOf sObjs s).foldl pushAula sp.aulas }
      | none => (findSubObj sObjs s).map
          (fun s0 => { nome := s0.nome,
                       aulas := (contribAulasOf sObjs s).foldl pushAula [] }) := by
  induction sObjs generalizing ss with
  | nil =>
    cases h : lookupA ss s <;> simp [contribAulasOf, findSubObj, h]
  | cons s0 rest ih =>
    simp only [List.foldl_cons, contribAulasOf, findSubObj]
    rw [ih, mergeSubtema_lookup]
    by_cases hk : s = s0.nome
    · subst hk
      cases h : lookupA ss s0.nome with
      | some sp => simp [h, subProcMerge, List.foldl_append]
      | none => simp [h, subProcMerge, subProcInit, List.foldl_append]
    · have hnk : ¬ s0.nome = s := fun hh => hk hh.symm
      rw [if_neg hk]
      simp only [if_neg hnk, List.nil_append]

theorem foldl_mergeTema_entry (tObjs : List TemaObj)
    (ts : List (Str × TemaProc)) (t : Str) :
    lookupA (tObjs.foldl mergeTema ts) t =
      match lookupA ts t with
      | some tp => some { tp with
          subtemas := (contribSubObjs tObjs t).foldl mergeSubtema tp.subtemas }
      | none => (findTemaObj tObjs t).map
          (fun t0 => { nome := t0.nome,
                       subtemas := (contribSubObjs tObjs t).foldl mergeSubtema [] }) := by
  induction tObjs generalizing ts with
  | nil =>
    cases h : lookupA ts t <;> simp [contribSubObjs, findTemaObj, h]
  | cons t0 rest ih =>
    simp only [List.foldl_cons, contribSubObjs, findTemaObj]
    rw [ih, mergeTema_lookup]
    by_cases hk : t = t0.nome
    · subst hk
      cases h : lookupA ts t0.nome with
      | some tp => simp [h, temaProcMerge, List.foldl_append]
      | none => simp [h, temaProcMerge, temaProcInit, List.foldl_append]
    · have hnk : ¬ t0.nome = t := fun hh => hk hh.symm
      rw [if_neg hk]
      simp only [if_neg hnk, List.nil_append]

theorem foldl_mergeDia_entry (dias : List DiaObj)
    (acc : List (Str × DiaProc)) (k : Str) :
    lookupA (dias.foldl mergeDia acc) k =
      match lookupA acc k with
      | some dp => some { dp with
          temas := (contribTemaObjs dias k).foldl mergeTema dp.temas }
      | none => (findDiaObj dias k).map
          (fun d0 => { semana := d0.semana, nome := d0.nome,
                       temas := (contribTemaObjs dias k).foldl mergeTema [] }) := by
  induction dias generalizing acc with
  | nil =>
    cases h : lookupA acc k <;> simp [contribTemaObjs, findDiaObj, h]
  | cons d rest ih =>
    simp only [List.foldl_cons, contribTemaObjs, findDiaObj]
    rw [ih, mergeDia_lookup]
    by_cases hk : k = d.nome
    · subst hk
      cases h : lookupA acc d.nome with
      | some dp => simp [h, diaProcMerge, List.foldl_append]
      | none => simp [h, diaProcMerge, diaProcInit, List.foldl_append]
    · have hnk : ¬ d.nome = k := fun hh => hk hh.symm
      rw [if_neg hk]
      simp only [if_neg hnk, List.nil_append]

theorem contribTemaObjs_eq_nil (dias : List DiaObj) (k : Str)
    (h : findDiaObj dias k = none) : contribTemaObjs dias k = [] := by
  induction dias with
  | nil => rfl
  | cons d ds ih =>
    simp only [findDiaObj] at h
    simp only [contribTemaObjs]
    by_cases hd : d.nome = k
    · rw [if_pos hd] at h
      simp at h
    · rw [if_neg hd] at h
      rw [if_neg hd, List.nil_append]
      exact ih h

theorem contribSubObjs_eq_nil (tObjs : List TemaObj) (t : Str)
    (h : findTemaObj tObjs t = none) : contribSubObjs tObjs t = [] := by
  induction tObjs with
  | nil => rfl
  | cons t0 ts ih =>
    simp only [findTemaObj] at h
    simp only [contribSubObjs]
    by_cases hd : t0.nome = t
    · rw [if_pos hd] at h
      simp at h
    · rw [if_neg hd] at h
      rw [if_neg hd, List.nil_append]
      exact ih h

/-! ## Entry invariants preserved by the merge steps -/

theorem mergeStep_preserves {β : Type} (P : Str × β → Prop) (l : List (Str × β))
    (k0 : Str) (init : β) (f : β → β)
    (hl : ∀ p ∈ l, P p) (hinit : P (k0, init))
    (hf : ∀ p, P p → P (p.1, f p.2)) :
    ∀ p ∈ updateA (if hasKey l k0 then l else l ++ [(k0, init)]) k0 f, P p := by
  intro p hp
  rw [updateA] at hp
  obtain ⟨q, hq, rfl⟩ := List.mem_map.mp hp
  have hq' : P q := by
    by_cases h : hasKey l k0
    · rw [if_pos h] at hq
      exact hl q hq
    · rw [if_neg h] at hq
      rcases List.mem_append.mp hq with hq1 | hq2
      · exact hl q hq1
      · have hq3 : q = (k0, init) := by simpa using hq2
        rw [hq3]
        exact hinit
  show P (if q.1 = k0 then (q.1, f q.2) else q)
  by_cases hqk : q.1 = k0
  · rw [if_pos hqk]
    exact hf q hq'
  · rw [if_neg hqk]
    exact hq'

theorem subNamesOk_foldl (sObjs : List SubtemaObj) (ss : List (Str × SubtemaProc))
    (h : SubNamesOk ss) : SubNamesOk (sObjs.foldl mergeSubtema ss) := by
  induction sObjs generalizing ss with
  | nil => exact h
  | cons s sObjs ih =>
    refine ih _ ?_
    exact mergeStep_preserves _ ss s.nome (subProcInit s) (subProcMerge s)
      h rfl (fun p hp => hp)

theorem temaNamesOk_foldl (tObjs : List TemaObj) (ts : List (Str × TemaProc))
    (h : TemaNamesOk ts) : TemaNamesOk (tObjs.foldl mergeTema ts) := by
  induction tObjs generalizing ts with
  | nil => exact h
  | cons t tObjs ih =>
    refine ih _ ?_
    exact mergeStep_preserves _ ts t.nome (temaProcInit t) (temaProcMerge t)
      h rfl (fun p hp => hp)

theorem diaNamesOk_foldl (dias : List DiaObj) (acc : List (Str × DiaProc))
    (h : DiaNamesOk acc) : DiaNamesOk (dias.foldl mergeDia acc) := by
  induction dias generalizing acc with
  | nil => exact h
  | cons d ds ih =>
    refine ih _ ?_
    refine mergeStep_preserves _ acc d.nome (diaProcInit d) (diaProcMerge d)
      h ⟨rfl, by intro q hq; simp [diaProcInit] at hq⟩ ?_
    intro p hp
    exact ⟨hp.1, temaNamesOk_foldl d.temas p.2.temas hp.2⟩

/-! ## No duplicate lesson in any subtopic -/

theorem nodup_append_single {α : Type} (l : List α) (a : α)
    (h : l.Nodup) (ha : a ∉ l) : (l ++ [a]).Nodup := by
  induction l with
  | nil => simp
  | cons b l ih =>
    rw [List.nodup_cons] at h
    have hab : a ∉ l := fun hm => ha (List.mem_cons_of_mem _ hm)
    have hba : ¬ b = a := fun hh => ha (hh ▸ List.mem_cons_self _ _)
    simp only [List.cons_append, List.nodup_cons, List.mem_append,
      List.mem_singleton]
    exact ⟨fun hm => hm.elim h.1 hba, ih h.2 hab⟩

theorem foldl_pushAula_nodup (as : List Aula) (l : List Aula) (h : l.Nodup) :
    (as.foldl pushAula l).Nodup := by
  induction as generalizing l with
  | nil => exact h
  | cons a as ih =>
    refine ih _ ?_
    unfold pushAula
    by_cases ha : a ∈ l
    · rwa [if_pos ha]
    · rw [if_neg ha]
      exact nodup_append_single l a h ha

theorem subsNodup_foldl (sObjs : List SubtemaObj) (ss : List (Str × SubtemaProc))
    (h : SubsNodup ss) : SubsNodup (sObjs.foldl mergeSubtema ss) := by
  induction sObjs generalizing ss with
  | nil => exact h
  | cons s sObjs ih =>
    refine ih _ ?_
    refine mergeStep_preserves _ ss s.nome (subProcInit s) (subProcMerge s)
      h (by simp [subProcInit]) ?_
    intro p hp
    exact foldl_pushAula_nodup s.aulas p.2.aulas hp

theorem temasNodup_foldl (tObjs : List TemaObj) (ts : List (Str × TemaProc))
    (h : TemasNodup ts) : TemasNodup (tObjs.foldl mergeTema ts) := by
  induction tObjs generalizing ts with
  | nil => exact h
  | cons t tObjs ih =>
    refine ih _ ?_
    refine mergeStep_preserves _ ts t.nome (temaProcInit t) (temaProcMerge t)
      h (by intro p hp; simp [temaProcInit] at hp) ?_
    intro p hp
    exact subsNodup_foldl t.subtemas p.2.subtemas hp

theorem diasNodup_foldl (dias : List DiaObj) (acc : List (Str × DiaProc))
    (h : DiasNodup acc) : DiasNodup (dias.foldl mergeDia acc) := by
  induction dias generalizing acc with
  | nil => exact h
  | cons d ds ih =>
    refine ih _ ?_
    refine mergeStep_preserves _ acc d.nome (diaProcInit d) (diaProcMerge d)
      h (by intro q hq; simp [diaProcInit] at hq) ?_
    intro p hp
    exact temasNodup_foldl d.temas p.2.temas hp

/-! ## Characterization of the `dados_brutos` accumulation -/

theorem pushDado_keys (db : List (Str × List DiaObj)) (k : Str) (d : DiaObj) :
    (pushDado db k d).map Prod.fst = insOcc (db.map Prod.fst) k := by
  unfold pushDado
  by_cases h : hasKey db k
  · rw [if_pos h, map_fst_updateA, insOcc, if_pos ((hasKey_iff_mem db k).mp h)]
  · rw [if_neg h, List.map_append, insOcc,
      if_neg (fun hm => h ((hasKey_iff_mem db k).mpr hm))]
    rfl

theorem pushDado_lookup (db : List (Str × List DiaObj)) (k : Str) (d : DiaObj)
    (a : Str) :
    lookupA (pushDado db k d) a =
      if a = k then some ((lookupA db k).getD [] ++ [d]) else lookupA db a := by
  unfold pushDado
  by_cases h : hasKey db k
  · rw [if_pos h, lookupA_updateA]
    by_cases ha : a = k
    · rw [if_pos ha, if_pos ha]
      have hs := (hasKey_eq_isSome db k) ▸ h
      cases hl : lookupA db k with
      | none => rw [hl] at hs; simp at hs
      | some ds => simp [hl]
    · rw [if_neg ha, if_neg ha]
  · have hn : lookupA db k = none := by
      rw [hasKey_eq_isSome] at h
      cases hl : lookupA db k with
      | none => rfl
      | some ds => rw [hl] at h; simp at h
    rw [if_neg h, lookupA_append_single]
    by_cases ha : a = k
    · rw [if_pos ha, if_pos ha, ha, hn]
      simp
    · rw [if_neg ha, if_neg ha]
      simp

theorem foldl_pushRow_keys (rows : List RawRow) (db : List (Str × List DiaObj)) :
    (rows.foldl pushRow db).map Prod.fst =
      (keptAreas rows).foldl insOcc (db.map Prod.fst) := by
  induction rows generalizing db with
  | nil => rfl
  | cons r rs ih =>
    simp only [List.foldl_cons, keptAreas]
    cases hn : normRow r with
    | none =>
      simp only [pushRow, hn, List.nil_append]
      exact ih db
    | some p =>
      simp only [pushRow, hn, List.singleton_append, List.foldl_cons]
      rw [ih, pushDado_keys]

theorem dadosBrutos_keys (rows : List RawRow) :
    (dadosBrutos rows).map Prod.fst = firstOccur (keptAreas rows) :=
  foldl_pushRow_keys rows []

theorem foldl_pushRow_lookup (rows : List RawRow) (db : List (Str × List DiaObj))
    (a : Str) :
    lookupA (rows.foldl pushRow db) a =
      if lookupA db a = none ∧ contribDias rows a = [] then none
      else some ((lookupA db a).getD [] ++ contribDias rows a) := by
  induction rows generalizing db with
  | nil =>
    simp only [List.foldl_nil, contribDias]
    cases h : lookupA db a with
    | none => simp
    | some ds => simp
  | cons r rs ih =>
    simp only [List.foldl_cons, contribDias]
    cases hn : normRow r with
    | none =>
      simp only [pushRow, hn, List.nil_append]
      exact ih db
    | some p =>
      simp only [pushRow, hn]
      rw [ih]
      by_cases ha : p.1 = a
      · subst ha
        rw [pushDado_lookup, if_pos rfl]
        simp [List.append_assoc]
      · have hap : ¬ a = p.1 := fun hh => ha hh.symm
        rw [pushDado_lookup, if_neg hap, if_neg ha]
        simp only [List.nil_append]

theorem dadosBrutos_lookup (rows : List RawRow) (a : Str) :
    lookupA (dadosBrutos rows) a =
      if contribDias rows a = [] then none else some (contribDias rows a) := by
  unfold dadosBrutos
  rw [foldl_pushRow_lookup]
  simp [lookupA]

/-! ## Characterization of the final formatting -/

theorem formatar_keys (db : List (Str × List DiaObj)) :
    (formatar_cronograma_final db).map Prod.fst = db.map Prod.fst := by
  induction db with
  | nil => rfl
  | cons p db ih =>
    simp only [formatar_cronograma_final, List.map_cons] at ih ⊢
    rw [ih]

theorem formatar_lookup (db : List (Str × List DiaObj)) (a : Str) :
    lookupA (formatar_cronograma_final db) a =
      (lookupA db a).map
        (fun ds => (ds.foldl mergeDia []).map (fun q => finalizeDia q.2)) := by
  induction db with
  | nil => rfl
  | cons p db ih =>
    simp only [formatar_cronograma_final, List.map_cons, lookupA] at ih ⊢
    by_cases h : p.1 = a
    · rw [if_pos h, if_pos h]
      rfl
    · rw [if_neg h, if_neg h]
      exact ih

/-! ## From consolidated entries to the final lists -/

theorem map_nome_finalizeDia (l : List (Str × DiaProc))
    (h : ∀ p ∈ l, p.2.nome = p.1) :
    (l.map (fun q => finalizeDia q.2)).map DiaFinal.nome = l.map Prod.fst := by
  induction l with
  | nil => rfl
  | cons p l ih =>
    simp only [List.map_cons]
    rw [ih (fun q hq => h q (List.mem_cons_of_mem _ hq))]
    congr 1
    exact h p (List.mem_cons_self _ _)

theorem map_nome_finalizeTema (ts : List (Str × TemaProc)) (h : TemaNamesOk ts) :
    (ts.map (fun q => finalizeTema q.2)).map TemaFinal.nome = ts.map Prod.fst := by
  induction ts with
  | nil => rfl
  | cons p ts ih =>
    simp only [List.map_cons]
    rw [ih (fun q hq => h q (List.mem_cons_of_mem _ hq))]
    congr 1
    exact h p (List.mem_cons_self _ _)

theorem findDiaIn_map_finalizeDia (l : List (Str × DiaProc)) (k : Str)
    (h : ∀ p ∈ l, p.2.nome = p.1) :
    findDiaIn (l.map (fun q => finalizeDia q.2)) k = (lookupA l k).map finalizeDia := by
  induction l with
  | nil => rfl
  | cons p l ih =>
    simp only [List.map_cons, findDiaIn, lookupA]
    have hp : (finalizeDia p.2).nome = p.1 := h p (List.mem_cons_self _ _)
    rw [hp]
    by_cases hk : p.1 = k
    · rw [if_pos hk, if_pos hk]
      rfl
    · rw [if_neg hk, if_neg hk]
      exact ih (fun q hq => h q (List.mem_cons_of_mem _ hq))

theorem map_nome_finalizeSub (ss : List (Str × SubtemaProc)) (h : SubNamesOk ss) :
    (ss.map (fun q => finalizeSub q.2)).map SubtemaFinal.nome = ss.map Prod.fst := by
  induction ss with
  | nil => rfl
  | cons p ss ih =>
    simp only [List.map_cons]
    rw [ih (fun q hq => h q (List.mem_cons_of_mem _ hq))]
    congr 1
    exact h p (List.mem_cons_self _ _)

theorem findTemaIn_map_finalizeTema (ts : List (Str × TemaProc)) (t : Str)
    (h : TemaNamesOk ts) :
    findTemaIn (ts.map (fun q => finalizeTema q.2)) t =
      (lookupA ts t).map finalizeTema := by
  induction ts with
  | nil => rfl
  | cons p ts ih =>
    simp only [List.map_cons, findTemaIn, lookupA]
    have hp : (finalizeTema p.2).nome = p.1 := h p (List.mem_cons_self _ _)
    rw [hp]
    by_cases hk : p.1 = t
    · rw [if_pos hk, if_pos hk]
      rfl
    · rw [if_neg hk, if_neg hk]
      exact ih (fun q hq => h q (List.mem_cons_of_mem _ hq))

theorem findSubIn_map_finalizeSub (ss : List (Str × SubtemaProc)) (s : Str)
    (h : SubNamesOk ss) :
    findSubIn (ss.map (fun q => finalizeSub q.2)) s =
      (lookupA ss s).map finalizeSub := by
  induction ss with
  | nil => rfl
  | cons p ss ih =>
    simp only [List.map_cons, findSubIn, lookupA]
    have hp : (finalizeSub p.2).nome = p.1 := h p (List.mem_cons_self _ _)
    rw [hp]
    by_cases hk : p.1 = s
    · rw [if_pos hk, if_pos hk]
      rfl
    · rw [if_neg hk, if_neg hk]
      exact ih (fun q hq => h q (List.mem_cons_of_mem _ hq))

/-! ## Build-level characterizations -/

theorem diasOf_build (rows : List RawRow) (area : Str) :
    diasOf (build rows) area =
      ((contribDias rows area).foldl mergeDia []).map (fun q => finalizeDia q.2) := by
  unfold diasOf build
  rw [formatar_lookup, dadosBrutos_lookup]
  by_cases h : contribDias rows area = []
  · rw [if_pos h, h]
    rfl
  · rw [if_neg h]
    rfl

theorem diaNamesOk_contrib (rows : List RawRow) (area : Str) :
    DiaNamesOk ((contribDias rows area).foldl mergeDia []) :=
  diaNamesOk_foldl _ [] (by intro p hp; simp at hp)

theorem dayNames_build (rows : List RawRow) (area : Str) :
    (diasOf (build rows) area).map DiaFinal.nome =
      firstOccur ((contribDias rows area).map DiaObj.nome) := by
  rw [diasOf_build,
    map_nome_finalizeDia _ (fun p hp => (diaNamesOk_contrib rows area p hp).1),
    foldl_mergeDia_keys]
  rfl

theorem findDia_build (rows : List RawRow) (area k : Str) :
    findDia (build rows) area k =
      (lookupA ((contribDias rows area).foldl mergeDia []) k).map finalizeDia := by
  unfold findDia
  rw [diasOf_build]
  exact findDiaIn_map_finalizeDia _ k
    (fun p hp => (diaNamesOk_contrib rows area p hp).1)

theorem build_day_semana (rows : List RawRow) (area k : Str) :
    (findDia (build rows) area k).map DiaFinal.semana =
      (findDiaObj (contribDias rows area) k).map DiaObj.semana := by
  rw [findDia_build, Option.map_map]
  have hc : (DiaFinal.semana ∘ finalizeDia) = DiaProc.semana := rfl
  rw [hc, foldl_mergeDia_semana]
  simp [lookupA]

theorem build_day_temaNames (rows : List RawRow) (area k : Str) :
    (findDia (build rows) area k).map (fun d => d.temas.map TemaFinal.nome) =
      (findDiaObj (contribDias rows area) k).map
        (fun _ => firstOccur (contribTemas (contribDias rows area) k)) := by
  have htk := foldl_mergeDia_temaKeys (contribDias rows area) [] k
  simp only [lookupA, Option.map_none', optOr_none] at htk
  rw [findDia_build, Option.map_map]
  cases hl : lookupA ((contribDias rows area).foldl mergeDia []) k with
  | none =>
    rw [hl] at htk
    simp only [Option.map_none'] at htk
    cases hf : findDiaObj (contribDias rows area) k with
    | none => simp
    | some d0 =>
      rw [hf] at htk
      simp at htk
  | some dp =>
    rw [hl] at htk
    simp only [Option.map_some'] at htk
    cases hf : findDiaObj (contribDias rows area) k with
    | none =>
      rw [hf] at htk
      simp at htk
    | some d0 =>
      rw [hf] at htk
      simp only [Option.isSome_some, if_pos, Option.map_some'] at htk
      have hval := Option.some.inj htk
      simp only [Option.map_some']
      have hmem := lookupA_mem _ _ _ hl
      have htn : TemaNamesOk dp.temas := (diaNamesOk_contrib rows area (k, dp) hmem).2
      congr 1
      show (dp.temas.map (fun q => finalizeTema q.2)).map TemaFinal.nome =
        firstOccur (contribTemas (contribDias rows area) k)
      rw [map_nome_finalizeTema _ htn, hval]
      rfl

theorem build_day_entry (rows : List RawRow) (area dia : Str) :
    findDia (build rows) area dia =
      (findDiaObj (contribDias rows area) dia).map
        (fun d0 => finalizeDia
          { semana := d0.semana, nome := d0.nome,
            temas := (contribTemaObjs (contribDias rows area) dia).foldl mergeTema [] }) := by
  rw [findDia_build, foldl_mergeDia_entry]
  simp only [lookupA]
  rw [Option.map_map]
  rfl

theorem build_tema_entry (rows : List RawRow) (area dia tema : Str) :
    (findDia (build rows) area dia).bind (fun d => findTemaIn d.temas tema) =
      (findTemaObj (contribTemaObjs (contribDias rows area) dia) tema).map
        (fun t0 => finalizeTema
          { nome := t0.nome,
            subtemas := (contribSubObjs (contribTemaObjs (contribDias rows area) dia)
              tema).foldl mergeSubtema [] }) := by
  rw [build_day_entry]
  cases hd : findDiaObj (contribDias rows area) dia with
  | none =>
    rw [contribTemaObjs_eq_nil _ _ hd]
    rfl
  | some d0 =>
    simp only [Option.map_some', Option.some_bind]
    show findTemaIn
        (((contribTemaObjs (contribDias rows area) dia).foldl mergeTema []).map
          (fun q => finalizeTema q.2)) tema = _
    rw [findTemaIn_map_finalizeTema _ _
      (temaNamesOk_foldl _ [] (by intro q hq; simp at hq))]
    rw [foldl_mergeTema_entry]
    simp only [lookupA]
    rw [Option.map_map]
    rfl

theorem build_sub_names (rows : List RawRow) (area dia tema : Str) :
    ((findDia (build rows) area dia).bind (fun d => findTemaIn d.temas tema)).map
        (fun t => t.subtemas.map SubtemaFinal.nome) =
      (findTemaObj (contribTemaObjs (contribDias rows area) dia) tema).map
        (fun _ => firstOccur ((contribSubObjs (contribTemaObjs (contribDias rows area) dia)
          tema).map SubtemaObj.nome)) := by
  rw [build_tema_entry]
  cases ht : findTemaObj (contribTemaObjs (contribDias rows area) dia) tema with
  | none => rfl
  | some t0 =>
    simp only [Option.map_some']
    congr 1
    show (((contribSubObjs (contribTemaObjs (contribDias rows area) dia) tema).foldl
        mergeSubtema []).map (fun q => finalizeSub q.2)).map SubtemaFinal.nome = _
    rw [map_nome_finalizeSub _ (subNamesOk_foldl _ [] (by intro q hq; simp at hq))]
    rw [foldl_mergeSubtema_keys]
    rfl

theorem build_sub_aulas (rows : List RawRow) (area dia tema sub : Str) :
    (((findDia (build rows) area dia).bind (fun d => findTemaIn d.temas tema)).bind
        (fun t => findSubIn t.subtemas sub)).map SubtemaFinal.aulas =
      (findSubObj (contribSubObjs (contribTemaObjs (contribDias rows area) dia) tema)
          sub).map
        (fun _ => (contribAulasOf (contribSubObjs (contribTemaObjs (contribDias rows area)
          dia) tema) sub).foldl pushAula []) := by
  rw [build_tema_entry]
  cases ht : findTemaObj (contribTemaObjs (contribDias rows area) dia) tema with
  | none =>
    rw [contribSubObjs_eq_nil _ _ ht]
    rfl
  | some t0 =>
    simp only [Option.map_some', Option.some_bind]
    show (findSubIn
        (((contribSubObjs (contribTemaObjs (contribDias rows area) dia) tema).foldl
          mergeSubtema []).map (fun q => finalizeSub q.2)) sub).map SubtemaFinal.aulas = _
    rw [findSubIn_map_finalizeSub _ _ (subNamesOk_foldl _ [] (by intro q hq; simp at hq))]
    rw [foldl_mergeSubtema_entry]
    simp only [lookupA]
    rw [Option.map_map]
    cases findSubObj (contribSubObjs (contribTemaObjs (contribDias rows area) dia) tema)
        sub <;> simp [Function.comp, finalizeSub]

theorem nodupAulasCron_build (rows : List RawRow) :
    nodupAulasCron (build rows) = true := by
  unfold nodupAulasCron build formatar_cronograma_final
  rw [List.all_eq_true]
  intro p hp
  obtain ⟨q, hq, rfl⟩ := List.mem_map.mp hp
  simp only [List.all_eq_true]
  intro d hd
  obtain ⟨w, hw, rfl⟩ := List.mem_map.mp hd
  have hnd : DiasNodup (q.2.foldl mergeDia []) :=
    diasNodup_foldl _ [] (by intro x hx; simp at hx)
  have hw' := hnd w hw
  intro t ht
  obtain ⟨u, hu, rfl⟩ := List.mem_map.mp ht
  have hu' := hw' u hu
  intro s hs
  obtain ⟨v, hv, rfl⟩ := List.mem_map.mp hs
  have hv' := hu' v hv
  simpa using hv'

/-! ## Search lemmas -/

theorem buscarCore_append (l1 l2 : List (Str × List DiaFinal)) (termo : Str) :
    buscarCore (l1 ++ l2) termo = buscarCore l1 termo ++ buscarCore l2 termo := by
  induction l1 with
  | nil => rfl
  | cons p l1 ih =>
    simp only [List.cons_append, buscarCore, List.append_eq, List.append_assoc, ih]

theorem lowerNat_idem (n : Nat) : lowerNat (lowerNat n) = lowerNat n := by
  unfold lowerNat
  by_cases h : 65 ≤ n ∧ n ≤ 90
  · rw [if_pos h, if_neg (by omega)]
  · rw [if_neg h, if_neg h]

theorem lowerStr_idem (s : Str) : lowerStr (lowerStr s) = lowerStr s := by
  induction s with
  | nil => rfl
  | cons c s ih =>
    simp only [lowerStr, List.map_cons] at ih ⊢
    rw [lowerNat_idem, ih]

/-! ## File-level lemmas -/

theorem gatherRows_error (pre post : List FileRead) :
    gatherRows (pre ++ Except.error () :: post) = none := by
  induction pre with
  | nil => rfl
  | cons f fs ih =>
    cases f with
    | error e => rfl
    | ok rs => simp [gatherRows, ih]

theorem gatherRows_okNil (pre post : List FileRead) :
    gatherRows (pre ++ Except.ok [] :: post) = gatherRows (pre ++ post) := by
  induction pre with
  | nil =>
    simp only [List.nil_append, gatherRows]
    cases h : gatherRows post <;> simp
  | cons f fs ih =>
    cases f with
    | error e => rfl
    | ok rs => simp [gatherRows, ih]

/-! ## Row-skip lemmas -/

theorem isEmpty_false_of_ne {α : Type} (l : List α) (h : l ≠ []) :
    l.isEmpty = false := by
  cases l with
  | nil => exact absurd rfl h
  | cons a l => rfl

theorem normRow_isNone (r : RawRow) : (normRow r).isNone = skipRow r := by
  unfold normRow skipRow
  cases hc : criar_chave_semana (trimStr r.semana) with
  | none =>
    simp only [hc]
    simp
  | some chave =>
    simp only [hc, Option.isNone_some, Bool.or_false]
    by_cases h : extrair_area_conhecimento (trimStr r.semana) = [] ∨
        trimStr r.dia = [] ∨ trimStr r.tema_do_dia = []
    · rw [if_pos h]
      rcases h with h | h | h <;> simp [h]
    · rw [if_neg h]
      push_neg at h
      simp [isEmpty_false_of_ne _ h.1, isEmpty_false_of_ne _ h.2.1,
        isEmpty_false_of_ne _ h.2.2]

theorem pushRow_skip (db : List (Str × List DiaObj)) (r : RawRow)
    (h : normRow r = none) : pushRow db r = db := by
  simp [pushRow, h]

theorem build_skip_middle (rows1 rows2 : List RawRow) (r : RawRow)
    (h : normRow r = none) :
    build (rows1 ++ r :: rows2) = build (rows1 ++ rows2) := by
  unfold build dadosBrutos
  rw [List.foldl_append, List.foldl_append, List.foldl_cons,
    pushRow_skip _ _ h]

/-! ## The area split against its close-paren description -/

theorem dropWhile_self {α : Type} (p : α → Bool) (l : List α) :
    (l.dropWhile p).dropWhile p = l.dropWhile p := by
  induction l with
  | nil => rfl
  | cons a l ih =>
    by_cases h : p a
    · simp [List.dropWhile, h, ih]
    · simp [List.dropWhile, h]

theorem trimStr_dropWhile (s : Str) :
    trimStr (s.dropWhile isSpaceNat) = trimStr s := by
  unfold trimStr
  rw [dropWhile_self]

/-! ## Claims -/

/-- C1 counterexample: with rows carrying day names "b" then "a" in the
same area, the built structure is keyed by topic area (there is no entry
under the week key "semana_1"), and the day list keeps insertion order
"b", "a", which is not the lexicographic order "a", "b"; so the Schedule
is neither week-keyed nor sorted. -/
theorem c1_output_not_sorted_counterexample :
    (build [rowDayB, rowDayA]).map Prod.fst = [str2l "Med"] ∧
    (diasOf (build [rowDayB, rowDayA]) (str2l "Med")).map DiaFinal.nome =
      [str2l "b", str2l "a"] ∧
    [str2l "b", str2l "a"] ≠ [str2l "a", str2l "b"] ∧
    lookupA (build [rowDayB, rowDayA]) (str2l "semana_1") = none := by
  decide

/-- C1 amended: the built Schedule is a mapping keyed by topic area whose
entries appear in first-insertion order of the contributing rows; within
an area the day names appear in first-insertion order, within a day the
topic names appear in first-insertion order, within a topic the subtopic
names appear in first-insertion order, and within a subtopic the lesson
list is the first-insertion (deduplicating) fold of the contributed
lessons in processing order; no level is sorted. -/
theorem c1_first_insertion_order (rows : List RawRow) (area dia tema sub : Str) :
    (build rows).map Prod.fst = firstOccur (keptAreas rows) ∧
    (diasOf (build rows) area).map DiaFinal.nome =
      firstOccur ((contribDias rows area).map DiaObj.nome) ∧
    (findDia (build rows) area dia).map (fun d => d.temas.map TemaFinal.nome) =
      (findDiaObj (contribDias rows area) dia).map
        (fun _ => firstOccur (contribTemas (contribDias rows area) dia)) ∧
    ((findDia (build rows) area dia).bind (fun d => findTemaIn d.temas tema)).map
        (fun t => t.subtemas.map SubtemaFinal.nome) =
      (findTemaObj (contribTemaObjs (contribDias rows area) dia) tema).map
        (fun _ => firstOccur ((contribSubObjs (contribTemaObjs (contribDias rows area)
          dia) tema).map SubtemaObj.nome)) ∧
    (((findDia (build rows) area dia).bind (fun d => findTemaIn d.temas tema)).bind
        (fun t => findSubIn t.subtemas sub)).map SubtemaFinal.aulas =
      (findSubObj (contribSubObjs (contribTemaObjs (contribDias rows area) dia) tema)
          sub).map
        (fun _ => (contribAulasOf (contribSubObjs (contribTemaObjs (contribDias rows area)
          dia) tema) sub).foldl pushAula []) := by
  refine ⟨?_, dayNames_build rows area, build_day_temaNames rows area dia,
    build_sub_names rows area dia tema, build_sub_aulas rows area dia tema sub⟩
  unfold build
  rw [formatar_keys, dadosBrutos_keys]

/-- C2 counterexample: with one readable file holding a good row followed
by one unreadable file, the whole build returns the bare empty dict, even
though the first file alone would have produced a nonempty schedule; the
rows of successfully read files are not kept. -/
theorem c2_failed_file_discards_all_counterexample :
    processar_arquivos_para_hierarquia [Except.ok [rowKeep], Except.error ()] = none ∧
    build [rowKeep] ≠ [] := by
  decide

/-- C2 amended: a read error on any file aborts the whole build and
yields the bare empty dict (src/app.py:150); only an empty-but-readable
file is skipped with processing continuing. -/
theorem c2_error_aborts_build :
    (∀ pre post : List FileRead,
      processar_arquivos_para_hierarquia (pre ++ Except.error () :: post) = none) ∧
    (∀ pre post : List FileRead, pre ++ post ≠ [] →
      processar_arquivos_para_hierarquia (pre ++ Except.ok [] :: post) =
        processar_arquivos_para_hierarquia (pre ++ post)) := by
  constructor
  · intro pre post
    have hne : (pre ++ Except.error () :: post).isEmpty = false := by
      cases pre <;> rfl
    simp [processar_arquivos_para_hierarquia, hne, gatherRows_error]
  · intro pre post hppne
    have h1 : (pre ++ Except.ok [] :: post).isEmpty = false := by
      cases pre <;> rfl
    have h2 : (pre ++ post).isEmpty = false := by
      cases hpp : pre ++ post with
      | nil => exact absurd hpp hppne
      | cons f fs => rfl
    simp [processar_arquivos_para_hierarquia, h1, h2, gatherRows_okNil]

/-- C2 witness: an empty readable file in the middle is skipped and
processing continues. -/
theorem c2_error_aborts_build_witness :
    processar_arquivos_para_hierarquia [Except.ok [rowKeep], Except.ok []] =
      processar_arquivos_para_hierarquia [Except.ok [rowKeep]] :=
  c2_error_aborts_build.2 [Except.ok [rowKeep]] [] (by simp)

/-- C3 counterexample: two rows share the derivable week key "semana_1"
with different labels, yet the built structure holds no entry under that
key at all — its keys are the two topic areas — so no WeekEntry with
displayLabel, numericOrder, period or topicArea exists whose metadata
could be compared. -/
theorem c3_no_week_entry_counterexample :
    criar_chave_semana (trimStr rowW1Med.semana) = some (str2l "semana_1") ∧
    criar_chave_semana (trimStr rowW1Cir.semana) = some (str2l "semana_1") ∧
    lookupA (build [rowW1Med, rowW1Cir]) (str2l "semana_1") = none ∧
    (build [rowW1Med, rowW1Cir]).map Prod.fst = [str2l "Med", str2l "Cir"] := by
  decide

/-- C3 amended: the build derives no week-level metadata; the only
week-derived field in the output is the week-key string of each day entry,
which equals the key derived from the first kept row creating that
(topic area, day name) entry and is never overwritten by later rows. -/
theorem c3_day_week_key_first_write (rows : List RawRow) (area dia : Str) :
    (findDia (build rows) area dia).map DiaFinal.semana =
      (findDiaObj (contribDias rows area) dia).map DiaObj.semana :=
  build_day_semana rows area dia

/-- C4 counterexample: a row whose week label is "Semana 1" has a
derivable week key and nonblank day and topic labels — none of the three
skip conditions of the claim — yet it is skipped, because its topic area
is empty (no parenthesis in the label). -/
theorem c4_area_skip_counterexample :
    (criar_chave_semana (trimStr rowNoArea.semana)).isSome = true ∧
    trimStr rowNoArea.dia ≠ [] ∧
    trimStr rowNoArea.tema_do_dia ≠ [] ∧
    build [rowNoArea] = [] := by
  decide

/-- C4 amended: a row is silently skipped exactly when its day label is
blank, its combined-topic label is blank, no week key can be derived, or
its topic area is empty (the fourth condition at src/app.py:106); a
skipped row leaves the built Schedule unchanged. -/
theorem c4_skip_rule :
    (∀ r : RawRow, (build [r]).isEmpty = skipRow r) ∧
    (∀ (rows1 rows2 : List RawRow) (r : RawRow), normRow r = none →
      build (rows1 ++ r :: rows2) = build (rows1 ++ rows2)) := by
  constructor
  · intro r
    have hs := normRow_isNone r
    cases hn : normRow r with
    | none =>
      have hb : build [r] = [] := by
        unfold build dadosBrutos
        simp [pushRow, hn, formatar_cronograma_final]
      rw [hn] at hs
      rw [hb]
      exact hs
    | some p =>
      have hb : (build [r]).isEmpty = false := by
        unfold build dadosBrutos
        simp [pushRow, hn, pushDado, hasKey, formatar_cronograma_final]
      rw [hn] at hs
      rw [hb]
      exact hs
  · exact fun rows1 rows2 r h => build_skip_middle rows1 rows2 r h

/-- C4 witness: the no-area row is dropped from a larger batch, and a
singleton build of it is empty. -/
theorem c4_skip_rule_witness :
    build [rowKeep, rowNoArea] = build [rowKeep] ∧
    (build [rowNoArea]).isEmpty = skipRow rowNoArea :=
  ⟨c4_skip_rule.2 [rowKeep] [] rowNoArea (by decide), c4_skip_rule.1 rowNoArea⟩

/-- C5 confirmed: in every built Schedule every subtopic lesson list is
free of structurally equal duplicates, and two identical rows produce a
single subtopic holding exactly one lesson. -/
theorem c5_lesson_dedup :
    (∀ rows : List RawRow, nodupAulasCron (build rows) = true) ∧
    (findDia (build [rowKeep, rowKeep]) (str2l "Med") (str2l "seg")).map
        (fun d => d.temas.map (fun t => t.subtemas.map (fun s => s.aulas.length))) =
      some [[1]] :=
  ⟨nodupAulasCron_build, by decide⟩

/-- C6 counterexample: the label ") hi" holds no open-paren, hence no
parenthesized group, yet the derived topic area is "hi" (nonempty): the
code splits on the first close-paren, not on a parenthesized group. -/
theorem c6_no_paren_group_counterexample :
    (40 : Nat) ∉ str2l ") hi" ∧
    extrair_area_conhecimento (str2l ") hi") = str2l "hi" ∧
    str2l "hi" ≠ ([] : Str) := by
  decide

/-- C6 amended: for every week label, the derived topic area is the
trimmed text that follows the first close-paren character of the label,
and the empty string when the label holds no close-paren; this matches
the text after the first parenthesized group whenever the first
close-paren closes such a group. -/
theorem c6_area_follows_first_close (s : Str) :
    extrair_area_conhecimento s = deriveTopicAreaAmended s := by
  induction s with
  | nil => rfl
  | cons c s ih =>
    unfold extrair_area_conhecimento deriveTopicAreaAmended at ih ⊢
    by_cases h : c = 41
    · subst h
      simp [afterFirstClose, List.dropWhile, trimStr_dropWhile]
    · simp only [afterFirstClose, if_neg h]
      rw [ih]
      simp [List.dropWhile, h]

/-- C7 counterexample: the schedule stores week key "semana_1" on its
only day, yet searching for "semana_1" returns no result at all — the
week-level match of the code tests the term only against the topic-area
group key, never against week key, display label or period. -/
theorem c7_week_fields_unsearched_counterexample :
    (diasOf cronSemana1 (str2l "med")).map DiaFinal.semana = [str2l "semana_1"] ∧
    buscar cronSemana1 (str2l "semana_1") = [] := by
  decide

/-- C7 amended: when the lower-cased term occurs in the lower-cased topic
area of a group, search emits exactly one day-shaped Match per day of
that group — carrying the week key of the day, day name, area, full topic list
and an empty lesson field — and inspects nothing deeper in that group. -/
theorem c7_area_match_emits_all_days (pre post : List (Str × List DiaFinal))
    (area : Str) (dias : List DiaFinal) (termo : Str)
    (h : strContains (lowerStr area) termo = true) :
    buscarCore (pre ++ (area, dias) :: post) termo =
      buscarCore pre termo ++ dias.map (diaResultado area) ++ buscarCore post termo := by
  rw [buscarCore_append, List.append_assoc]
  congr 1
  simp only [buscarCore, buscaArea]
  rw [if_pos h]

/-- C7 witness: a concrete area-level hit emits the single day of the
matched group as a day-shaped result. -/
theorem c7_area_match_emits_all_days_witness :
    buscarCore ([] ++ (str2l "med", [diaSeg]) :: []) (str2l "med") =
      buscarCore [] (str2l "med") ++ [diaSeg].map (diaResultado (str2l "med")) ++
        buscarCore [] (str2l "med") :=
  c7_area_match_emits_all_days [] [] (str2l "med") [diaSeg] (str2l "med") (by decide)

/-- C8 confirmed: a missing or empty search term yields the 400 error
body with its explanatory message, and every nonempty term yields the 200
body holding the match list. -/
theorem c8_term_validation (cron : List (Str × List DiaFinal)) (q : Str) :
    buscar_rota cron none = Except.error errMsg ∧
    buscar_rota cron (some []) = Except.error errMsg ∧
    (q ≠ [] → buscar_rota cron (some q) = Except.ok (buscar cron q)) := by
  refine ⟨rfl, rfl, fun hq => ?_⟩
  cases q with
  | nil => exact absurd rfl hq
  | cons c s => rfl

/-- C8 witness: the concrete term "x" yields the 200 body. -/
theorem c8_term_validation_witness :
    buscar_rota [] (some (str2l "x")) = Except.ok (buscar [] (str2l "x")) :=
  (c8_term_validation [] (str2l "x")).2.2 (by decide)

/-- C9 confirmed: search lower-cases the term before comparing, so it
equals the search for the lower-cased term, and "CARDIO" and "cardio"
return identical result sequences on every schedule. -/
theorem c9_search_case_insensitive (cron : List (Str × List DiaFinal)) (q : Str) :
    buscar cron q = buscar cron (lowerStr q) ∧
    buscar cron (str2l "CARDIO") = buscar cron (str2l "cardio") := by
  constructor
  · unfold buscar
    rw [lowerStr_idem]
  · unfold buscar
    rw [show lowerStr (str2l "CARDIO") = lowerStr (str2l "cardio") from by decide]

/-- C10 confirmed: within a topic-area group, the day entry found under a
day name carries the week key of the first kept row with that day name —
later rows with the same day name and a different key never overwrite
it — and the topic-name list of the day is the first-insertion merge of the
topic names of all kept rows with that day name. -/
theorem c10_day_week_key_and_topic_merge (rows : List RawRow) (area dia : Str) :
    (findDia (build rows) area dia).map
        (fun d => (d.semana, d.temas.map TemaFinal.nome)) =
      (findDiaObj (contribDias rows area) dia).map
        (fun d0 => (d0.semana, firstOccur (contribTemas (contribDias rows area) dia))) := by
  have h1 := build_day_semana rows area dia
  have h2 := build_day_temaNames rows area dia
  cases hf : findDia (build rows) area dia with
  | none =>
    rw [hf] at h1
    simp only [Option.map_none'] at h1 ⊢
    cases hd : findDiaObj (contribDias rows area) dia with
    | none => rfl
    | some d0 => rw [hd] at h1; simp at h1
  | some df =>
    rw [hf] at h1 h2
    simp only [Option.map_some'] at h1 h2
    cases hd : findDiaObj (contribDias rows area) dia with
    | none => rw [hd] at h1; simp at h1
    | some d0 =>
      rw [hd] at h1 h2
      simp only [Option.map_some', Option.some.injEq] at h1 h2
      simp only [Option.map_some', Option.some.injEq]
      exact congrArg₂ Prod.mk h1 h2

end ApiEnamed
